import Mathlib

/-!
Verification of the trivia board game core (turn/phase machine, twist engine,
board geometry, star pool, modifier store) against its specification.

The definitions below are shallow embeddings of the TypeScript sources:
board geometry and `getGatesPassed` from `src/app/game/page.tsx`,
`findPreviousGate` and `executeImmediateTwist` from the twist-handlers module,
the modifier store from `src/hooks/useTwists.ts`, question selection from
`src/hooks/useQuestions.ts`, and the star/player data model from
`src/types/game.types.ts`.  Randomness (`Math.random`) is modelled by an
explicit `rand`/`pick` parameter used as an index modulo the pool size.
TypeScript numbers on the reachable domain are modelled as `Nat` for board
positions and step counts and as `Int` for scores and modifier counters.
-/

/-- Constant `TOTAL_STEPS` from `CircularBoard` / `BOARD_TOTAL_STEPS`: the circular
track has 25 positions. -/
def TOTAL_STEPS : Nat := 25

/-- Constant `GATE_POSITIONS` / `BOARD_GATE_POSITIONS`: gates every 5 steps. -/
def GATE_POSITIONS : List Nat := [0, 5, 10, 15, 20]

/-- Constant `STAR_POINT_VALUES` from `game.types.ts`. -/
def STAR_POINT_VALUES : List Int := [0, 50, 50, 100, 100, 150, 150, 200, 200, 250]

/-- Structure `StarState` from `game.types.ts`. -/
structure StarState where
  id : Nat
  pointValue : Int
  isEarned : Bool
  earnedByPlayerId : Option String
deriving DecidableEq, Repr

/-- Structure `Player` from `game.types.ts` (presentation fields `name`, `type` and
`avatarEmoji` omitted; they are never read by the game logic under claim). -/
structure Player where
  id : String
  score : Int
  boardPosition : Nat
  starsCollected : Int
deriving DecidableEq, Repr

/-- Function `createInitialStars` from `game.types.ts`: the Fisher-Yates shuffle is
modelled by taking the already-shuffled value list as an argument; theorems
quantify over all permutations of `STAR_POINT_VALUES`. -/
def createInitialStars (shuffledValues : List Int) : List StarState :=
  shuffledValues.enum.map fun iv => ⟨iv.1, iv.2, false, none⟩

/-- Sum of the point values of all stars (earned and unearned). -/
def totalStarValue (stars : List StarState) : Int :=
  (stars.map (·.pointValue)).sum

/-- Number of earned stars. -/
def earnedCount (stars : List StarState) : Nat :=
  (stars.filter (·.isEarned)).length

/-- Number of unearned stars (`availableStars.length` in the page). -/
def unearnedCount (stars : List StarState) : Nat :=
  (stars.filter (fun s => !s.isEarned)).length

/-! ## Board geometry -/

/-- The loop body of `getGatesPassed`: iterate `i = first, first+1, ...` for
`count` steps, collecting `(startPos + i) % TOTAL_STEPS` whenever it is a
gate, in traversal order. -/
def gatesLoop (startPos : Nat) : Nat → Nat → List Nat
  | 0, _ => []
  | count + 1, i =>
    (if (startPos + i) % TOTAL_STEPS ∈ GATE_POSITIONS
      then [(startPos + i) % TOTAL_STEPS] else []) ++ gatesLoop startPos count (i + 1)

/-- Function `getGatesPassed` from `src/app/game/page.tsx`: for `i` in `1..steps`,
collect `(startPos + i) % TOTAL_STEPS` when it is a gate. -/
def getGatesPassed (startPos steps : Nat) : List Nat :=
  gatesLoop startPos steps 1

/-- The position/gates computation of `processNextMovement`: the player moves
to `(boardPosition + steps) % TOTAL_STEPS` and the gates passed are
`getGatesPassed boardPosition steps`. -/
def processMovement (player : Player) (steps : Nat) : Player × List Nat :=
  let gatesPassed := getGatesPassed player.boardPosition steps
  let newPosition := (player.boardPosition + steps) % TOTAL_STEPS
  ({ player with boardPosition := newPosition }, gatesPassed)

/-- Function `findPreviousGate` from the twist-handlers module: the greatest gate
strictly below the current position, else the last gate of
`GATE_POSITIONS`. -/
def findPreviousGate (currentPosition : Nat) : Nat :=
  match GATE_POSITIONS.filter (fun g => decide (g < currentPosition)) with
  | [] => GATE_POSITIONS.getLastD 0
  | h :: t => t.foldl Nat.max h

/-! ## Modifier store (`useTwists.ts`) -/

/-- The four modifier kinds of `PlayerModifier.type`. -/
inductive ModifierType where
  | double_next
  | shield
  | frozen
  | category_master
deriving DecidableEq, Repr

/-- The `value` field of a modifier is a string (category) or number. -/
inductive MValue where
  | str : String → MValue
  | num : Int → MValue
deriving DecidableEq, Repr

/-- Structure `PlayerModifier` from `game.types.ts`. -/
structure PlayerModifier where
  playerId : String
  type : ModifierType
  turnsRemaining : Int
  value : Option MValue
deriving DecidableEq, Repr

/-- Does modifier `m` carry the key `(pid, ty)`? -/
def modKey (pid : String) (ty : ModifierType) (m : PlayerModifier) : Bool :=
  decide (m.playerId = pid) && decide (m.type = ty)

/-- Function `addModifier`: drop any existing modifier with the same
(playerId, type) key, then append the new one. -/
def addModifier (m : PlayerModifier) (l : List PlayerModifier) : List PlayerModifier :=
  (l.filter fun x => !(modKey m.playerId m.type x)) ++ [m]

/-- Function `removeModifier`: drop every modifier with the given key. -/
def removeModifier (pid : String) (ty : ModifierType) (l : List PlayerModifier) :
    List PlayerModifier :=
  l.filter fun x => !(modKey pid ty x)

/-- Decrement `turnsRemaining` of one modifier. -/
def decModifier (m : PlayerModifier) : PlayerModifier :=
  { m with turnsRemaining := m.turnsRemaining - 1 }

/-- Function `tickModifiers`: decrement every entry and drop the expired ones. -/
def tickModifiers (l : List PlayerModifier) : List PlayerModifier :=
  (l.map decModifier).filter fun m => decide (0 < m.turnsRemaining)

/-- Function `getModifier`: first (hence, under key uniqueness, only) entry with the
given key. -/
def getModifier (pid : String) (ty : ModifierType) (l : List PlayerModifier) :
    Option PlayerModifier :=
  l.find? (modKey pid ty)

/-- Function `isPlayerFrozen` from the twist-handlers module. -/
def isPlayerFrozen (pid : String) (mods : List PlayerModifier) : Bool :=
  mods.any fun m =>
    decide (m.playerId = pid) && decide (m.type = ModifierType.frozen) &&
      decide (0 < m.turnsRemaining)

/-- One call into the modifier store. -/
inductive ModOp where
  | add : PlayerModifier → ModOp
  | remove : String → ModifierType → ModOp
  | tick : ModOp

/-- Apply one store call. -/
def applyModOp (l : List PlayerModifier) : ModOp → List PlayerModifier
  | .add m => addModifier m l
  | .remove pid ty => removeModifier pid ty l
  | .tick => tickModifiers l

/-- Run a sequence of store calls from the empty store. -/
def runModOps (ops : List ModOp) : List PlayerModifier :=
  ops.foldl applyModOp []

/-- Specification-level view of one store call as seen by a single key:
the most recent add wins, remove clears, tick decrements and expires. -/
def specStep (pid : String) (ty : ModifierType) (o : Option PlayerModifier) :
    ModOp → Option PlayerModifier
  | .add m => if modKey pid ty m then some m else o
  | .remove p t => if decide (p = pid) && decide (t = ty) then none else o
  | .tick => o.bind fun m =>
      if 0 < (decModifier m).turnsRemaining then some (decModifier m) else none

/-- Specification-level result of a call sequence for a single key. -/
def specGet (pid : String) (ty : ModifierType) (ops : List ModOp) : Option PlayerModifier :=
  ops.foldl (specStep pid ty) none

/-- At most one modifier per (playerId, type) key. -/
def UniqueKeys (l : List PlayerModifier) : Prop :=
  l.Pairwise fun a b => ¬(a.playerId = b.playerId ∧ a.type = b.type)

/-! ## Question pool (`useQuestions.ts`) -/

/-- Structure `TriviaQuestion` (text and answer options omitted; selection only reads
`id`, `difficulty` and `category`). -/
structure TriviaQuestion where
  id : String
  difficulty : Nat
  category : String
deriving DecidableEq, Repr

/-- The `categoryFilter` helper: no forced category, or matching category. -/
def categoryFilter (forced : Option String) (q : TriviaQuestion) : Bool :=
  match forced with
  | none => true
  | some c => decide (q.category = c)

/-- The call `Math.floor(Math.random() * pool.length)` modelled as `pick % length`:
pick a random element of a pool, `none` exactly when the pool is empty. -/
def pickFrom (pool : List TriviaQuestion) (pick : Nat) : Option TriviaQuestion :=
  pool[pick % pool.length]?

/-- Function `selectQuestionByDifficulty` from `useQuestions.ts`.  `used` is the
used-id set; marking the returned question used is caller-side state and not
part of the returned value under claim. -/
def selectQuestionByDifficulty (questions : List TriviaQuestion) (used : List String)
    (difficulty : Nat) (forced : Option String) (pick : Nat) : Option TriviaQuestion :=
  let availableQuestions := questions.filter fun q =>
    decide (q.difficulty = difficulty) && !(used.contains q.id) && categoryFilter forced q
  if availableQuestions.isEmpty then
    let nearbyDifficulties :=
      ([(difficulty : Int) - 1, (difficulty : Int) + 1,
        (difficulty : Int) - 2, (difficulty : Int) + 2]).filter fun d =>
          decide (1 ≤ d) && decide (d ≤ 5)
    let fromNearby := nearbyDifficulties.findSome? fun d =>
      pickFrom (questions.filter fun q =>
        decide ((q.difficulty : Int) = d) && !(used.contains q.id) &&
          categoryFilter forced q) pick
    match fromNearby with
    | some q => some q
    | none =>
      let anyUnused := questions.filter fun q =>
        !(used.contains q.id) && categoryFilter forced q
      let anyUnused :=
        if anyUnused.isEmpty && forced.isSome then
          questions.filter fun q => !(used.contains q.id)
        else anyUnused
      pickFrom anyUnused pick
  else
    pickFrom availableQuestions pick

/-! ## Twist cards and the immediate-twist engine -/

/-- The twenty twist effect kinds of `TwistEffectType`. -/
inductive TwistEffectType where
  | move_back_gate
  | others_back_gate
  | free_star
  | steal_star
  | bonus_question
  | instant_points
  | upgrade_zero_star
  | extra_turn
  | swap_positions
  | double_next
  | teleport_gate
  | freeze_player
  | reverse_order
  | star_peek
  | shield
  | everyone_moves
  | random_teleport
  | category_master
  | difficulty_choice
  | points_swap
deriving DecidableEq, Repr

/-- Structure `TwistCard` (title/description/emoji/targetPlayer/isPositive and
`requiresQuestion` omitted: the resolution engine reads only these fields).
Catalog effect values are all non-negative integers, so `Option Nat`. -/
structure TwistCard where
  id : String
  effectType : TwistEffectType
  effectValue : Option Nat
  requiresChoice : Bool
deriving DecidableEq, Repr

/-- JavaScript `x || d` on an optional non-negative number: `undefined` and
`0` are falsy and give the default. -/
def orDefault (v : Option Nat) (d : Nat) : Nat :=
  match v with
  | some (n + 1) => n + 1
  | _ => d

/-- Structure `TwistExecutionResult` from the twist-handlers module (the Hebrew
`message` string is presentation and omitted). -/
structure TwistExecutionResult where
  players : Option (List Player)
  stars : Option (List StarState)
  addModifier : Option PlayerModifier
  goToNextTurn : Bool
  showChoicePopup : Bool
  goToBonusQuestion : Bool
  goToSpinning : Bool
  extraTurnPending : Bool
  reverseOrder : Option Nat
deriving DecidableEq, Repr

/-- A result with every optional field absent and every flag cleared;
each branch of the engine overrides the fields it sets. -/
def emptyResult : TwistExecutionResult :=
  ⟨none, none, none, false, false, false, false, false, none⟩

/-- Function `executeImmediateTwist` from the twist-handlers module.  `rand` models
`Math.random()` for `random_teleport`.  In `move_back_gate`, the JavaScript
test `if (twist.effectValue)` is false for `undefined` and for `0`; the
back-N position `(pos - value + TOTAL_STEPS) % TOTAL_STEPS` is written
`(pos + TOTAL_STEPS - value) % TOTAL_STEPS`, identical for every catalog
value (all are at most `TOTAL_STEPS`). -/
def executeImmediateTwist (twist : TwistCard) (currentPlayer : Player)
    (players : List Player) (stars : List StarState) (rand : Nat) :
    TwistExecutionResult :=
  if twist.requiresChoice then
    { emptyResult with showChoicePopup := true }
  else
    match twist.effectType with
    | .move_back_gate =>
      match twist.effectValue with
      | some (v + 1) =>
        let newPos := (currentPlayer.boardPosition + TOTAL_STEPS - (v + 1)) % TOTAL_STEPS
        let updatedPlayers := players.map fun p =>
          if p.id = currentPlayer.id then { p with boardPosition := newPos } else p
        { emptyResult with players := some updatedPlayers, goToNextTurn := true }
      | _ =>
        let prevGate := findPreviousGate currentPlayer.boardPosition
        let updatedPlayers := players.map fun p =>
          if p.id = currentPlayer.id then { p with boardPosition := prevGate } else p
        { emptyResult with players := some updatedPlayers, goToNextTurn := true }
    | .others_back_gate =>
      let updatedPlayers := players.map fun p =>
        if p.id = currentPlayer.id then p
        else { p with boardPosition := findPreviousGate p.boardPosition }
      { emptyResult with players := some updatedPlayers, goToNextTurn := true }
    | .random_teleport =>
      let randomPos := rand % TOTAL_STEPS
      let updatedPlayers := players.map fun p =>
        if p.id = currentPlayer.id then { p with boardPosition := randomPos } else p
      { emptyResult with players := some updatedPlayers, goToNextTurn := true }
    | .everyone_moves =>
      let steps := orDefault twist.effectValue 2
      let updatedPlayers := players.map fun p =>
        { p with boardPosition := (p.boardPosition + steps) % TOTAL_STEPS }
      { emptyResult with players := some updatedPlayers, goToNextTurn := true }
    | .upgrade_zero_star =>
      match stars.find? (fun s =>
          decide (s.earnedByPlayerId = some currentPlayer.id) &&
            decide (s.pointValue = 0)) with
      | some zeroStar =>
        let updatedStars := stars.map fun s =>
          if s.id = zeroStar.id then { s with pointValue := 250 } else s
        let updatedPlayers := players.map fun p =>
          if p.id = currentPlayer.id then { p with score := p.score + 250 } else p
        { emptyResult with players := some updatedPlayers, stars := some updatedStars,
                           goToNextTurn := true }
      | none => { emptyResult with goToNextTurn := true }
    | .instant_points =>
      let points := orDefault twist.effectValue 50
      let updatedPlayers := players.map fun p =>
        if p.id = currentPlayer.id then { p with score := p.score + points } else p
      { emptyResult with players := some updatedPlayers, goToNextTurn := true }
    | .double_next =>
      { emptyResult with
        addModifier := some ⟨currentPlayer.id, .double_next, 2, some (.num 2)⟩,
        goToNextTurn := true }
    | .bonus_question =>
      { emptyResult with goToBonusQuestion := true }
    | .extra_turn =>
      { emptyResult with extraTurnPending := true, goToNextTurn := true }
    | .reverse_order =>
      { emptyResult with reverseOrder := some (orDefault twist.effectValue 3),
                         goToNextTurn := true }
    | .shield =>
      { emptyResult with
        addModifier := some ⟨currentPlayer.id, .shield, (orDefault twist.effectValue 2 : Nat), none⟩,
        goToNextTurn := true }
    | _ => { emptyResult with goToNextTurn := true }

/-! ## Turn/phase state machine (`src/app/game/page.tsx`) -/

/-- The `GamePhase` enum. -/
inductive GamePhase where
  | spinning
  | twist
  | twistChoice
  | twistBonusQ
  | question
  | countdown
  | results
  | moving
  | selectStar
  | revealingStar
  | finished
deriving DecidableEq, Repr

/-- The slice of the page state read and written by the handlers under
claim (per-round presentation state such as answer lists is omitted). -/
structure GameState where
  players : List Player
  stars : List StarState
  modifiers : List PlayerModifier
  currentTurnIndex : Nat
  phase : GamePhase
  extraTurnPending : Bool
  playOrderReversed : Bool
  reverseTurnsRemaining : Nat
deriving DecidableEq, Repr

/-- One step of the turn index in the active direction:
`(i + 1) % n` forward, `(i - 1 + n) % n` backward. -/
def stepIndex (reversed : Bool) (n i : Nat) : Nat :=
  if reversed then (i + n - 1) % n else (i + 1) % n

/-- The skip-frozen `while` loop of `handleNextTurn`.  The frozen check reads
the `modifiers` closure value captured before the tick (`oldMods`), while the
queued `removeModifier` updates apply to the already-ticked store threaded
through `mods`; `fuel` is the `attempts < players.length` bound. -/
def skipLoop (players : List Player) (oldMods : List PlayerModifier) (reversed : Bool) :
    Nat → Nat → List PlayerModifier → Nat × List PlayerModifier
  | idx, 0, mods => (idx, mods)
  | idx, fuel + 1, mods =>
    match players[idx]? with
    | some p =>
      if isPlayerFrozen p.id oldMods then
        skipLoop players oldMods reversed
          (stepIndex reversed players.length idx) fuel
          (removeModifier p.id .frozen mods)
      else (idx, mods)
    | none => (idx, mods)

/-- Function `handleNextTurn` from the game page.  React processes the queued
functional state updates in call order: `tickModifiers` first, then the
`removeModifier` calls issued by the skip loop; the skip loop itself tests
`isPlayerFrozen` against the pre-tick `modifiers` snapshot, and the turn
direction is the pre-update `playOrderReversed`. -/
def handleNextTurn (s : GameState) : GameState :=
  if s.extraTurnPending then
    { s with extraTurnPending := false, phase := .spinning }
  else
    let n := s.players.length
    let reverseRemaining :=
      if 0 < s.reverseTurnsRemaining then s.reverseTurnsRemaining - 1
      else s.reverseTurnsRemaining
    let reversedAfter := if s.reverseTurnsRemaining = 1 then false else s.playOrderReversed
    let ticked := tickModifiers s.modifiers
    let start := stepIndex s.playOrderReversed n s.currentTurnIndex
    let next := skipLoop s.players s.modifiers s.playOrderReversed start n ticked
    { s with modifiers := next.2, currentTurnIndex := next.1, phase := .spinning,
             playOrderReversed := reversedAfter,
             reverseTurnsRemaining := reverseRemaining }

/-! ## Star award and twist-choice handlers (`src/app/game/page.tsx`) -/

/-- Star mutation of `handleStarRevealComplete` and `handleTwistFreeStar`:
mark the chosen star earned by the player. -/
def awardStarStars (pid : String) (star : StarState) (stars : List StarState) :
    List StarState :=
  stars.map fun s =>
    if s.id = star.id then { s with isEarned := true, earnedByPlayerId := some pid } else s

/-- Player mutation of `handleStarRevealComplete` and `handleTwistFreeStar`:
add the star value to the score and bump the stars-collected count. -/
def awardStarPlayers (pid : String) (star : StarState) (players : List Player) :
    List Player :=
  players.map fun p =>
    if p.id = pid then
      { p with score := p.score + star.pointValue, starsCollected := p.starsCollected + 1 }
    else p

/-- Function `handleTwistChoosePlayer` from the game page: resolve a player-targeted
twist choice, then advance the turn (the trailing `handleNextTurn` call).
`rand` models the random star index in `steal_star`. -/
def handleTwistChoosePlayer (effectType : TwistEffectType) (cur target : Player)
    (rand : Nat) (s : GameState) : GameState :=
  let s1 : GameState :=
    match effectType with
    | .steal_star =>
      let targetStars := s.stars.filter fun st =>
        decide (st.earnedByPlayerId = some target.id)
      match targetStars[rand % targetStars.length]? with
      | some randomStar =>
        let newStars := s.stars.map fun st =>
          if st.id = randomStar.id then { st with earnedByPlayerId := some cur.id } else st
        let newPlayers := s.players.map fun p =>
          if p.id = target.id then
            { p with score := p.score - randomStar.pointValue,
                     starsCollected := p.starsCollected - 1 }
          else if p.id = cur.id then
            { p with score := p.score + randomStar.pointValue,
                     starsCollected := p.starsCollected + 1 }
          else p
        { s with stars := newStars, players := newPlayers }
      | none => s
    | .swap_positions =>
      let currentPos := cur.boardPosition
      let targetPos := target.boardPosition
      { s with players := s.players.map fun p =>
          if p.id = cur.id then { p with boardPosition := targetPos }
          else if p.id = target.id then { p with boardPosition := currentPos }
          else p }
    | .freeze_player =>
      { s with modifiers := addModifier ⟨target.id, .frozen, 1, none⟩ s.modifiers }
    | .points_swap =>
      if cur.score < target.score then
        let currentScore := cur.score
        let targetScore := target.score
        { s with players := s.players.map fun p =>
            if p.id = cur.id then { p with score := targetScore }
            else if p.id = target.id then { p with score := currentScore }
            else p }
      else s
    | _ => s
  handleNextTurn s1

/-! ## Helper lemmas -/

/-- Closed form of the `getGatesPassed` loop: the loop starting at offset `i`
for `count` iterations equals the filtered map over `List.range count`. -/
lemma gatesLoop_eq (p : Nat) : ∀ count i, gatesLoop p count i
    = ((List.range count).map fun j => (p + (i + j)) % TOTAL_STEPS).filter
        (fun g => decide (g ∈ GATE_POSITIONS)) := by
  intro count
  induction count with
  | zero => intro i; simp [gatesLoop]
  | succ n ih =>
    intro i
    rw [List.range_succ_eq_map]
    have hfun : ((fun j => (p + (i + j)) % TOTAL_STEPS) ∘ Nat.succ)
        = fun j => (p + ((i + 1) + j)) % TOTAL_STEPS := by
      funext j
      have h : p + (i + (j + 1)) = p + ((i + 1) + j) := by omega
      simp [Function.comp, Nat.succ_eq_add_one, h]
    by_cases hmem : (p + i) % TOTAL_STEPS ∈ GATE_POSITIONS <;>
      simp [gatesLoop, hmem, List.filter_cons, List.map_map, hfun, ih (i + 1)]

/-- The function `handleNextTurn` never changes the player list. -/
lemma handleNextTurn_players (s : GameState) : (handleNextTurn s).players = s.players := by
  unfold handleNextTurn
  split <;> rfl

/-- The function `handleNextTurn` never changes the star list. -/
lemma handleNextTurn_stars (s : GameState) : (handleNextTurn s).stars = s.stars := by
  unfold handleNextTurn
  split <;> rfl

/-! ## Claims -/

/-- C3: for all board positions and step counts, movement lands on
`(p + s) % 25`, and the gates-passed computation returns exactly the
positions `(p + i) % 25` for `i` in `1..s` that are gates, in traversal
order (`i` increasing). -/
theorem C3_movement_and_gates (player : Player) (steps : Nat) :
    (processMovement player steps).1.boardPosition = (player.boardPosition + steps) % 25
  ∧ (processMovement player steps).2
      = ((List.range steps).map fun i => (player.boardPosition + (i + 1)) % 25).filter
          (fun g => decide (g ∈ GATE_POSITIONS))
  ∧ (∀ g, g ∈ (processMovement player steps).2 ↔
        g ∈ GATE_POSITIONS ∧ ∃ i, 1 ≤ i ∧ i ≤ steps ∧ (player.boardPosition + i) % 25 = g) := by
  refine ⟨rfl, ?_, ?_⟩
  · show getGatesPassed player.boardPosition steps = _
    rw [getGatesPassed, gatesLoop_eq]
    simp only [TOTAL_STEPS]
    congr 1
    apply List.map_congr_left
    intro j hj
    congr 1
    omega
  · intro g
    show g ∈ getGatesPassed player.boardPosition steps ↔ _
    rw [getGatesPassed, gatesLoop_eq]
    simp only [List.mem_filter, List.mem_map, List.mem_range, decide_eq_true_eq,
      TOTAL_STEPS]
    constructor
    · rintro ⟨⟨j, hj, rfl⟩, hg⟩
      exact ⟨hg, j + 1, by omega, by omega, by rw [Nat.add_comm 1 j]⟩
    · rintro ⟨hg, i, h1, h2, rfl⟩
      exact ⟨⟨i - 1, by omega, by congr 1; omega⟩, hg⟩

/-- C3 witness: a concrete move from position 3 by 4 steps lands on 7 and
passes gate 5. -/
theorem C3_movement_and_gates_witness :
    (processMovement ⟨"A", 0, 3, 0⟩ 4).1.boardPosition = (3 + 4) % 25
  ∧ (5 ∈ (processMovement ⟨"A", 0, 3, 0⟩ 4).2 ↔
      5 ∈ GATE_POSITIONS ∧ ∃ i, 1 ≤ i ∧ i ≤ 4 ∧ (3 + i) % 25 = 5) :=
  ⟨(C3_movement_and_gates ⟨"A", 0, 3, 0⟩ 4).1,
   (C3_movement_and_gates ⟨"A", 0, 3, 0⟩ 4).2.2 5⟩

/-- C4: `findPreviousGate` returns the greatest gate strictly below the
position, wrapping to the last gate 20 when no gate is strictly below; in
particular `findPreviousGate 0 = 20` and `findPreviousGate (g + 1) = g` for
every gate `g`. -/
theorem C4_previous_gate (p : Nat) (hp : p < 25) :
    ((∃ g ∈ GATE_POSITIONS, g < p) →
      findPreviousGate p ∈ GATE_POSITIONS ∧ findPreviousGate p < p ∧
        ∀ g ∈ GATE_POSITIONS, g < p → g ≤ findPreviousGate p)
  ∧ ((¬∃ g ∈ GATE_POSITIONS, g < p) → findPreviousGate p = 20)
  ∧ findPreviousGate 0 = 20
  ∧ (∀ g ∈ GATE_POSITIONS, findPreviousGate (g + 1) = g) := by
  revert p
  decide

/-- C4 witness: instantiation at position 0. -/
theorem C4_previous_gate_witness :
    findPreviousGate 0 = 20 ∧ (∀ g ∈ GATE_POSITIONS, findPreviousGate (g + 1) = g) :=
  ⟨(C4_previous_gate 0 (by decide)).2.2.1, (C4_previous_gate 0 (by decide)).2.2.2⟩

/-- C9: in `executeImmediateTwist`, a `move_back_gate` twist whose
`effectValue` is present but `0` takes the previous-gate branch (JavaScript
`if (twist.effectValue)` treats `0` as falsy, like `undefined`); the
back-N-steps branch is taken exactly for a nonzero value. -/
theorem C9_move_back_gate_truthiness (twist : TwistCard) (cur : Player)
    (players : List Player) (stars : List StarState) (rand : Nat)
    (ht : twist.effectType = .move_back_gate) (hc : twist.requiresChoice = false) :
    ((twist.effectValue = some 0 ∨ twist.effectValue = none) →
      (executeImmediateTwist twist cur players stars rand).players
        = some (players.map fun p =>
            if p.id = cur.id then
              { p with boardPosition := findPreviousGate cur.boardPosition }
            else p))
  ∧ (∀ v, twist.effectValue = some v → v ≠ 0 →
      (executeImmediateTwist twist cur players stars rand).players
        = some (players.map fun p =>
            if p.id = cur.id then
              { p with boardPosition :=
                  (cur.boardPosition + TOTAL_STEPS - v) % TOTAL_STEPS }
            else p)) := by
  constructor
  · rintro (h | h) <;> simp [executeImmediateTwist, ht, hc, h]
  · intro v hv hv0
    obtain ⟨w, rfl⟩ : ∃ w, v = w + 1 := ⟨v - 1, by omega⟩
    simp [executeImmediateTwist, ht, hc, hv]

/-- C9 witness: a concrete `move_back_gate` card with `effectValue = 0`
snaps the acting player (at position 7) to gate 5. -/
theorem C9_move_back_gate_truthiness_witness :
    (executeImmediateTwist ⟨"m1", .move_back_gate, some 0, false⟩ ⟨"A", 0, 7, 0⟩
        [⟨"A", 0, 7, 0⟩] [] 0).players
      = some ([⟨"A", 0, 7, 0⟩].map fun p =>
          if p.id = "A" then { p with boardPosition := findPreviousGate 7 } else p) :=
  (C9_move_back_gate_truthiness ⟨"m1", .move_back_gate, some 0, false⟩ ⟨"A", 0, 7, 0⟩
    [⟨"A", 0, 7, 0⟩] [] 0 rfl rfl).1 (Or.inl rfl)

/-- C10: when the extra-turn flag is set, the turn-advance only clears the
flag and restarts the same player at `spinning`: modifiers are not ticked,
the reverse counter is not decremented, the current index is unchanged, and
no frozen skip runs. -/
theorem C10_extra_turn_frame (s : GameState) (h : s.extraTurnPending = true) :
    (handleNextTurn s).modifiers = s.modifiers
  ∧ (handleNextTurn s).reverseTurnsRemaining = s.reverseTurnsRemaining
  ∧ (handleNextTurn s).playOrderReversed = s.playOrderReversed
  ∧ (handleNextTurn s).currentTurnIndex = s.currentTurnIndex
  ∧ (handleNextTurn s).players = s.players
  ∧ (handleNextTurn s).stars = s.stars
  ∧ (handleNextTurn s).extraTurnPending = false
  ∧ (handleNextTurn s).phase = GamePhase.spinning := by
  simp [handleNextTurn, h]

/-- C10 witness: concrete state with the extra-turn flag set and a live
modifier; the advance leaves the modifier and counters untouched. -/
theorem C10_extra_turn_frame_witness :
    (handleNextTurn ⟨[⟨"A", 0, 0, 0⟩], [], [⟨"A", .shield, 2, none⟩], 0,
        .results, true, true, 2⟩).modifiers = [⟨"A", .shield, 2, none⟩]
  ∧ (handleNextTurn ⟨[⟨"A", 0, 0, 0⟩], [], [⟨"A", .shield, 2, none⟩], 0,
        .results, true, true, 2⟩).reverseTurnsRemaining = 2
  ∧ (handleNextTurn ⟨[⟨"A", 0, 0, 0⟩], [], [⟨"A", .shield, 2, none⟩], 0,
        .results, true, true, 2⟩).currentTurnIndex = 0
  ∧ (handleNextTurn ⟨[⟨"A", 0, 0, 0⟩], [], [⟨"A", .shield, 2, none⟩], 0,
        .results, true, true, 2⟩).extraTurnPending = false := by
  have h := C10_extra_turn_frame ⟨[⟨"A", 0, 0, 0⟩], [], [⟨"A", .shield, 2, none⟩], 0,
    .results, true, true, 2⟩ rfl
  exact ⟨h.1, h.2.1, h.2.2.2.1, h.2.2.2.2.2.2.1⟩

/-- Value of `totalStarValue` on a cons. -/
lemma totalStarValue_cons (s : StarState) (l : List StarState) :
    totalStarValue (s :: l) = s.pointValue + totalStarValue l := by
  simp [totalStarValue]

/-- A pointwise value-preserving map preserves the star total. -/
lemma totalStarValue_map_value_eq (f : StarState → StarState) (stars : List StarState)
    (hf : ∀ s, (f s).pointValue = s.pointValue) :
    totalStarValue (stars.map f) = totalStarValue stars := by
  simp only [totalStarValue, List.map_map]
  congr 1
  apply List.map_congr_left
  intro s _
  exact hf s

/-- The values of the initial stars are exactly the shuffled value list. -/
lemma createInitialStars_values (l : List Int) :
    (createInitialStars l).map (·.pointValue) = l := by
  simp only [createInitialStars, List.map_map]
  exact List.enum_map_snd l

/-- Raising one owned zero-valued star (unique id) to 250 raises the star
total by exactly 250. -/
lemma totalStarValue_update_zero (stars : List StarState) (zid : Nat)
    (hnd : (stars.map (·.id)).Nodup) :
    ∀ z ∈ stars, z.id = zid → z.pointValue = 0 →
    totalStarValue (stars.map fun s => if s.id = zid then { s with pointValue := 250 } else s)
      = totalStarValue stars + 250 := by
  induction stars with
  | nil => intro z hz; cases hz
  | cons a t ih =>
    simp only [List.map_cons, List.nodup_cons, List.mem_map] at hnd
    intro z hz hzid hzv
    rcases List.mem_cons.mp hz with rfl | hzt
    · have htail : t.map (fun s => if s.id = zid then { s with pointValue := 250 } else s) = t := by
        have hfix : ∀ s ∈ t, (if s.id = zid then { s with pointValue := 250 } else s) = s := by
          intro s hs
          have hne : ¬ s.id = zid := fun hcontra => hnd.1 ⟨s, hs, hcontra.trans hzid.symm⟩
          simp [hne]
        calc t.map _ = t.map id := List.map_congr_left (by simpa using hfix)
          _ = t := List.map_id t
      rw [List.map_cons, htail, if_pos hzid, totalStarValue_cons, totalStarValue_cons, hzv]
      ring
    · have haid : ¬ a.id = zid := by
        intro hcontra
        exact hnd.1 ⟨z, hzt, hzid.trans hcontra.symm⟩
      rw [List.map_cons, if_neg haid, totalStarValue_cons, totalStarValue_cons,
        ih hnd.2 z hzt hzid hzv]
      ring

/-- Every star is either earned or unearned. -/
lemma earnedCount_add_unearnedCount (stars : List StarState) :
    earnedCount stars + unearnedCount stars = stars.length := by
  induction stars with
  | nil => rfl
  | cons a t ih =>
    unfold earnedCount unearnedCount at *
    cases ha : a.isEarned <;> simp [List.filter_cons, ha] <;> omega

/-- C1 counterexample: the claimed fixed total 1100 is wrong already at the
initial star set, whose values sum to 1250; moreover `upgrade_zero_star`
does not preserve the total: after player A earns the 0-valued star, the
twist raises the total from 1250 to 1500. -/
theorem C1_counterexample :
    totalStarValue (createInitialStars STAR_POINT_VALUES) = 1250 ∧ (1250 : Int) ≠ 1100
  ∧ ((executeImmediateTwist ⟨"t9", .upgrade_zero_star, none, false⟩ ⟨"A", 0, 0, 1⟩
        [⟨"A", 0, 0, 1⟩]
        (awardStarStars "A" ⟨0, 0, false, none⟩ (createInitialStars STAR_POINT_VALUES))
        0).stars).map totalStarValue = some 1500
  ∧ totalStarValue
      (awardStarStars "A" ⟨0, 0, false, none⟩ (createInitialStars STAR_POINT_VALUES))
      = 1250 := by decide

/-- C1 (amended): the star pool total starts at 1250 (for every shuffle) and
is preserved by the star award mutation (normal reveal and `free_star`) and
by `steal_star`; `upgrade_zero_star` adds exactly 250 to the total when the
acting player owns a 0-valued star and leaves the star list untouched
otherwise; and the earned-star count always equals the star count (10 at
start, preserved by every operation) minus the unearned count. -/
theorem C1_star_pool_accounting :
    (∀ l : List Int, l.Perm STAR_POINT_VALUES →
        totalStarValue (createInitialStars l) = 1250
      ∧ (createInitialStars l).length = 10)
  ∧ (∀ pid star stars,
        totalStarValue (awardStarStars pid star stars) = totalStarValue stars
      ∧ (awardStarStars pid star stars).length = stars.length)
  ∧ (∀ cur target rand s,
        totalStarValue (handleTwistChoosePlayer .steal_star cur target rand s).stars
          = totalStarValue s.stars
      ∧ (handleTwistChoosePlayer .steal_star cur target rand s).stars.length
          = s.stars.length)
  ∧ (∀ twist cur (players : List Player) stars (rand : Nat),
        twist.effectType = .upgrade_zero_star → twist.requiresChoice = false →
        (stars.map (·.id)).Nodup →
        ((∀ z, stars.find? (fun s => decide (s.earnedByPlayerId = some cur.id) &&
              decide (s.pointValue = 0)) = some z →
          ∃ ns, (executeImmediateTwist twist cur players stars rand).stars = some ns
            ∧ totalStarValue ns = totalStarValue stars + 250 ∧ ns.length = stars.length)
        ∧ (stars.find? (fun s => decide (s.earnedByPlayerId = some cur.id) &&
              decide (s.pointValue = 0)) = none →
            (executeImmediateTwist twist cur players stars rand).stars = none)))
  ∧ (∀ stars, earnedCount stars + unearnedCount stars = stars.length) := by
  refine ⟨?_, ?_, ?_, ?_, earnedCount_add_unearnedCount⟩
  · intro l hperm
    constructor
    · show ((createInitialStars l).map (·.pointValue)).sum = 1250
      rw [createInitialStars_values, hperm.sum_eq]
      decide
    · rw [show (createInitialStars l).length = l.length by simp [createInitialStars],
        hperm.length_eq]
      rfl
  · intro pid star stars
    constructor
    · exact totalStarValue_map_value_eq _ _ (fun st => by split <;> rfl)
    · simp [awardStarStars]
  · intro cur target rand s
    constructor
    · simp only [handleTwistChoosePlayer]
      rw [handleNextTurn_stars]
      cases hfind : (s.stars.filter fun st =>
          decide (st.earnedByPlayerId = some target.id))[rand %
            (s.stars.filter fun st =>
              decide (st.earnedByPlayerId = some target.id)).length]? with
      | none => simp [hfind]
      | some star =>
        simp only [hfind]
        exact totalStarValue_map_value_eq _ _ (fun st => by split <;> rfl)
    · simp only [handleTwistChoosePlayer]
      rw [handleNextTurn_stars]
      cases hfind : (s.stars.filter fun st =>
          decide (st.earnedByPlayerId = some target.id))[rand %
            (s.stars.filter fun st =>
              decide (st.earnedByPlayerId = some target.id)).length]? with
      | none => simp [hfind]
      | some star => simp [hfind]
  · intro twist cur players stars rand ht hc hnd
    constructor
    · intro z hfind
      have hz : z ∈ stars := List.mem_of_find?_eq_some hfind
      have hzp := List.find?_some hfind
      simp only [Bool.and_eq_true, decide_eq_true_eq] at hzp
      refine ⟨stars.map (fun s => if s.id = z.id then { s with pointValue := 250 } else s),
        ?_, ?_, ?_⟩
      · simp [executeImmediateTwist, ht, hc, hfind, emptyResult]
      · exact totalStarValue_update_zero stars z.id hnd z hz rfl hzp.2
      · simp
    · intro hfind
      simp [executeImmediateTwist, ht, hc, hfind, emptyResult]

/-- C1 witness: the identity shuffle gives total 1250 over 10 stars, and a
concrete `upgrade_zero_star` on a state where player A owns the 0-valued
star adds exactly 250. -/
theorem C1_star_pool_accounting_witness :
    (totalStarValue (createInitialStars STAR_POINT_VALUES) = 1250
      ∧ (createInitialStars STAR_POINT_VALUES).length = 10)
  ∧ (∃ ns, (executeImmediateTwist ⟨"t9", .upgrade_zero_star, none, false⟩ ⟨"A", 0, 0, 1⟩
        [⟨"A", 0, 0, 1⟩]
        (awardStarStars "A" ⟨0, 0, false, none⟩ (createInitialStars STAR_POINT_VALUES))
        0).stars = some ns
      ∧ totalStarValue ns
          = totalStarValue (awardStarStars "A" ⟨0, 0, false, none⟩
              (createInitialStars STAR_POINT_VALUES)) + 250
      ∧ ns.length = (awardStarStars "A" ⟨0, 0, false, none⟩
          (createInitialStars STAR_POINT_VALUES)).length) :=
  ⟨C1_star_pool_accounting.1 STAR_POINT_VALUES (List.Perm.refl _),
   (C1_star_pool_accounting.2.2.2.1 ⟨"t9", .upgrade_zero_star, none, false⟩ ⟨"A", 0, 0, 1⟩
      [⟨"A", 0, 0, 1⟩]
      (awardStarStars "A" ⟨0, 0, false, none⟩ (createInitialStars STAR_POINT_VALUES))
      0 rfl rfl (by decide)).1 ⟨0, 0, true, some "A"⟩ (by decide)⟩

/-- One skip-loop step returns immediately when the player at the current
index is not frozen (or the index is out of range). -/
lemma skipLoop_not_frozen (players : List Player) (oldMods : List PlayerModifier)
    (reversed : Bool) (idx fuel : Nat) (mods : List PlayerModifier)
    (h : ∀ C, players[idx]? = some C → isPlayerFrozen C.id oldMods = false) :
    skipLoop players oldMods reversed idx (fuel + 1) mods = (idx, mods) := by
  rw [skipLoop]
  cases hC : players[idx]? with
  | none => rfl
  | some p => simp [h p hC]

/-- One skip-loop step over a frozen player removes the frozen modifier
of that player and advances the index. -/
lemma skipLoop_frozen_step (players : List Player) (oldMods : List PlayerModifier)
    (reversed : Bool) (idx fuel : Nat) (mods : List PlayerModifier) (p : Player)
    (hp : players[idx]? = some p) (hf : isPlayerFrozen p.id oldMods = true) :
    skipLoop players oldMods reversed idx (fuel + 1) mods
      = skipLoop players oldMods reversed (stepIndex reversed players.length idx) fuel
          (removeModifier p.id .frozen mods) := by
  rw [skipLoop, hp]
  simp [hf]

/-- Unfolding of `handleNextTurn` without a pending extra turn. -/
lemma handleNextTurn_eq (s : GameState) (hext : s.extraTurnPending = false) :
    handleNextTurn s = { s with
      modifiers := (skipLoop s.players s.modifiers s.playOrderReversed
          (stepIndex s.playOrderReversed s.players.length s.currentTurnIndex)
          s.players.length (tickModifiers s.modifiers)).2,
      currentTurnIndex := (skipLoop s.players s.modifiers s.playOrderReversed
          (stepIndex s.playOrderReversed s.players.length s.currentTurnIndex)
          s.players.length (tickModifiers s.modifiers)).1,
      phase := .spinning,
      playOrderReversed := if s.reverseTurnsRemaining = 1 then false else s.playOrderReversed,
      reverseTurnsRemaining := if 0 < s.reverseTurnsRemaining then s.reverseTurnsRemaining - 1
        else s.reverseTurnsRemaining } := by
  unfold handleNextTurn
  rw [if_neg (by simp [hext])]

/-- When the immediate next player is not frozen, `handleNextTurn` steps the
index once, goes to `spinning`, and the store is exactly the ticked store. -/
lemma handleNextTurn_simple_advance (s : GameState) (hext : s.extraTurnPending = false)
    (hn : 0 < s.players.length)
    (hC : ∀ C, s.players[stepIndex s.playOrderReversed s.players.length s.currentTurnIndex]?
        = some C → isPlayerFrozen C.id s.modifiers = false) :
    (handleNextTurn s).currentTurnIndex
      = stepIndex s.playOrderReversed s.players.length s.currentTurnIndex
  ∧ (handleNextTurn s).phase = .spinning
  ∧ (handleNextTurn s).modifiers = tickModifiers s.modifiers := by
  rw [handleNextTurn_eq s hext]
  obtain ⟨k, hk⟩ : ∃ k, s.players.length = k + 1 := ⟨s.players.length - 1, by omega⟩
  have hloop := skipLoop_not_frozen s.players s.modifiers s.playOrderReversed
    (stepIndex s.playOrderReversed s.players.length s.currentTurnIndex) k
    (tickModifiers s.modifiers) hC
  rw [← hk] at hloop
  refine ⟨?_, rfl, ?_⟩
  · show (skipLoop _ _ _ _ _ _).1 = _
    rw [hloop]
  · show (skipLoop _ _ _ _ _ _).2 = _
    rw [hloop]

/-- Variant of `handleNextTurn_simple_advance` through an id-preserving player map. -/
lemma handleNextTurn_advance_players_update (s : GameState) (f : Player → Player)
    (hfid : ∀ p, (f p).id = p.id)
    (hext : s.extraTurnPending = false) (hn : 0 < s.players.length)
    (hC : ∀ C, s.players[stepIndex s.playOrderReversed s.players.length s.currentTurnIndex]?
        = some C → isPlayerFrozen C.id s.modifiers = false) :
    (handleNextTurn { s with players := s.players.map f }).currentTurnIndex
      = stepIndex s.playOrderReversed s.players.length s.currentTurnIndex
  ∧ (handleNextTurn { s with players := s.players.map f }).phase = .spinning := by
  obtain ⟨h1, h2, h3⟩ := handleNextTurn_simple_advance { s with players := s.players.map f }
    hext (by simpa using hn)
    (by
      intro C hCeq
      simp only [List.length_map] at hCeq
      rw [List.getElem?_map] at hCeq
      obtain ⟨p, hp, rfl⟩ := Option.map_eq_some'.mp hCeq
      rw [hfid p]
      exact hC p hp)
  constructor
  · rw [h1]; simp [stepIndex]
  · exact h2

/-- Removing a key commutes with ticking the store. -/
lemma removeModifier_tickModifiers (pid : String) (ty : ModifierType)
    (l : List PlayerModifier) :
    removeModifier pid ty (tickModifiers l) = tickModifiers (removeModifier pid ty l) := by
  unfold removeModifier tickModifiers
  rw [List.filter_filter, List.filter_map, List.filter_map, List.filter_filter]
  congr 1
  apply List.filter_congr
  intro m _
  simp only [Function.comp]
  show (!(modKey pid ty (decModifier m)) && decide (0 < (decModifier m).turnsRemaining))
      = (decide (0 < (decModifier m).turnsRemaining) && !(modKey pid ty m))
  have hkey : modKey pid ty (decModifier m) = modKey pid ty m := rfl
  rw [hkey, Bool.and_comm]

/-- After removing the frozen modifier of a player, that player is not frozen. -/
lemma isPlayerFrozen_removeModifier (pid : String) (l : List PlayerModifier) :
    isPlayerFrozen pid (removeModifier pid .frozen l) = false := by
  rw [isPlayerFrozen, List.any_eq_false]
  intro m hm
  rw [removeModifier, List.mem_filter] at hm
  intro hcon
  simp only [Bool.and_eq_true, decide_eq_true_eq] at hcon
  have : modKey pid .frozen m = true := by
    simp [modKey, hcon.1.1, hcon.1.2]
  simp [this] at hm

/-- C6: resolving a `points_swap` choice exchanges the acting and target
scores exactly when the acting score is strictly below the target score and
is a no-op on the player list otherwise; stars, every other player, and the
non-score fields of the two involved players are untouched, and the turn
advances (next index in the active direction, phase back to `spinning`). -/
theorem C6_points_swap (cur target : Player) (rand : Nat) (s : GameState)
    (hext : s.extraTurnPending = false)
    (hn : 0 < s.players.length)
    (hC : ∀ C, s.players[stepIndex s.playOrderReversed s.players.length s.currentTurnIndex]?
        = some C → isPlayerFrozen C.id s.modifiers = false) :
    (cur.score < target.score →
      (handleTwistChoosePlayer .points_swap cur target rand s).players
        = s.players.map fun p =>
            if p.id = cur.id then { p with score := target.score }
            else if p.id = target.id then { p with score := cur.score }
            else p)
  ∧ (¬ cur.score < target.score →
      (handleTwistChoosePlayer .points_swap cur target rand s).players = s.players)
  ∧ (handleTwistChoosePlayer .points_swap cur target rand s).stars = s.stars
  ∧ (∀ p ∈ s.players, p.id ≠ cur.id → p.id ≠ target.id →
      p ∈ (handleTwistChoosePlayer .points_swap cur target rand s).players)
  ∧ (∀ q ∈ (handleTwistChoosePlayer .points_swap cur target rand s).players,
      ∃ p ∈ s.players, q.id = p.id ∧ q.boardPosition = p.boardPosition
        ∧ q.starsCollected = p.starsCollected)
  ∧ (handleTwistChoosePlayer .points_swap cur target rand s).currentTurnIndex
      = stepIndex s.playOrderReversed s.players.length s.currentTurnIndex
  ∧ (handleTwistChoosePlayer .points_swap cur target rand s).phase = .spinning := by
  by_cases hscore : cur.score < target.score
  · have hT : handleTwistChoosePlayer .points_swap cur target rand s
        = handleNextTurn { s with players := s.players.map fun p =>
            if p.id = cur.id then { p with score := target.score }
            else if p.id = target.id then { p with score := cur.score }
            else p } := by
      simp only [handleTwistChoosePlayer, if_pos hscore]
    have hadv := handleNextTurn_advance_players_update s
      (fun p =>
        if p.id = cur.id then { p with score := target.score }
        else if p.id = target.id then { p with score := cur.score }
        else p)
      (by
        intro p
        dsimp only
        split <;> first | rfl | (split <;> rfl))
      hext hn hC
    refine ⟨fun _ => ?_, fun hcon => absurd hscore hcon, ?_, ?_, ?_, ?_, ?_⟩
    · rw [hT, handleNextTurn_players]
    · rw [hT, handleNextTurn_stars]
    · intro p hp hpc hpt
      rw [hT, handleNextTurn_players]
      exact List.mem_map.mpr ⟨p, hp, by simp [hpc, hpt]⟩
    · intro q hq
      rw [hT, handleNextTurn_players] at hq
      obtain ⟨p, hp, rfl⟩ := List.mem_map.mp hq
      refine ⟨p, hp, ?_, ?_, ?_⟩ <;> (dsimp only; split <;> first | rfl | (split <;> rfl))
    · rw [hT, hadv.1]
    · rw [hT, hadv.2]
  · have hT : handleTwistChoosePlayer .points_swap cur target rand s
        = handleNextTurn s := by
      simp only [handleTwistChoosePlayer, if_neg hscore]
    have hadv := handleNextTurn_simple_advance s hext hn hC
    refine ⟨fun hcon => absurd hcon hscore, fun _ => ?_, ?_, ?_, ?_, ?_, ?_⟩
    · rw [hT, handleNextTurn_players]
    · rw [hT, handleNextTurn_stars]
    · intro p hp hpc hpt
      rw [hT, handleNextTurn_players]
      exact hp
    · intro q hq
      rw [hT, handleNextTurn_players] at hq
      exact ⟨q, hq, rfl, rfl, rfl⟩
    · rw [hT, hadv.1]
    · rw [hT, hadv.2.1]

/-- C6 witness: with scores 10 < 50 the two scores are exchanged and the
turn passes from index 0 to index 1. -/
theorem C6_points_swap_witness :
    (handleTwistChoosePlayer .points_swap ⟨"A", 10, 0, 0⟩ ⟨"B", 50, 5, 0⟩ 0
        ⟨[⟨"A", 10, 0, 0⟩, ⟨"B", 50, 5, 0⟩], [], [], 0, .twistChoice, false, false, 0⟩).players
      = [⟨"A", 10, 0, 0⟩, ⟨"B", 50, 5, 0⟩].map (fun p =>
          if p.id = "A" then { p with score := (50 : Int) }
          else if p.id = "B" then { p with score := (10 : Int) }
          else p)
  ∧ (handleTwistChoosePlayer .points_swap ⟨"A", 10, 0, 0⟩ ⟨"B", 50, 5, 0⟩ 0
        ⟨[⟨"A", 10, 0, 0⟩, ⟨"B", 50, 5, 0⟩], [], [], 0, .twistChoice, false, false, 0⟩).currentTurnIndex
      = stepIndex false 2 0 :=
  ⟨(C6_points_swap ⟨"A", 10, 0, 0⟩ ⟨"B", 50, 5, 0⟩ 0
      ⟨[⟨"A", 10, 0, 0⟩, ⟨"B", 50, 5, 0⟩], [], [], 0, .twistChoice, false, false, 0⟩
      rfl (by decide) (by decide)).1 (by decide),
   (C6_points_swap ⟨"A", 10, 0, 0⟩ ⟨"B", 50, 5, 0⟩ 0
      ⟨[⟨"A", 10, 0, 0⟩, ⟨"B", 50, 5, 0⟩], [], [], 0, .twistChoice, false, false, 0⟩
      rfl (by decide) (by decide)).2.2.2.2.2.1⟩

/-- C8: when the player at the next index carries a frozen modifier
(turnsRemaining 1, as `freeze_player` adds) the turn-advance skips them,
removes their frozen modifier as part of the skip, lands on the following
player in the active direction, and the final store equals the pre-skip
store with the frozen modifier removed and then ticked exactly once. -/
theorem C8_freeze_skip (s : GameState) (B C : Player)
    (hext : s.extraTurnPending = false)
    (hn : 2 ≤ s.players.length)
    (hB : s.players[stepIndex s.playOrderReversed s.players.length s.currentTurnIndex]?
        = some B)
    (hfrozen : (⟨B.id, .frozen, 1, none⟩ : PlayerModifier) ∈ s.modifiers)
    (hC : s.players[stepIndex s.playOrderReversed s.players.length
        (stepIndex s.playOrderReversed s.players.length s.currentTurnIndex)]? = some C)
    (hCnf : isPlayerFrozen C.id s.modifiers = false) :
    (handleNextTurn s).currentTurnIndex
      = stepIndex s.playOrderReversed s.players.length
          (stepIndex s.playOrderReversed s.players.length s.currentTurnIndex)
  ∧ (handleNextTurn s).modifiers
      = tickModifiers (removeModifier B.id .frozen s.modifiers)
  ∧ isPlayerFrozen B.id (handleNextTurn s).modifiers = false
  ∧ (handleNextTurn s).phase = .spinning := by
  have hBf : isPlayerFrozen B.id s.modifiers = true := by
    rw [isPlayerFrozen, List.any_eq_true]
    exact ⟨⟨B.id, .frozen, 1, none⟩, hfrozen, by simp⟩
  obtain ⟨k, hk⟩ : ∃ k, s.players.length = k + 2 := ⟨s.players.length - 2, by omega⟩
  have hloop : skipLoop s.players s.modifiers s.playOrderReversed
      (stepIndex s.playOrderReversed s.players.length s.currentTurnIndex)
      s.players.length (tickModifiers s.modifiers)
      = (stepIndex s.playOrderReversed s.players.length
          (stepIndex s.playOrderReversed s.players.length s.currentTurnIndex),
         removeModifier B.id .frozen (tickModifiers s.modifiers)) := by
    rw [hk]
    rw [skipLoop_frozen_step _ _ _ _ _ _ B (by rw [← hk]; exact hB) hBf]
    rw [← hk]
    rw [skipLoop_not_frozen]
    intro D hD
    rw [hC] at hD
    cases hD
    exact hCnf
  rw [handleNextTurn_eq s hext]
  refine ⟨?_, ?_, ?_, rfl⟩
  · show (skipLoop _ _ _ _ _ _).1 = _
    rw [hloop]
  · show (skipLoop _ _ _ _ _ _).2 = _
    rw [hloop]
    exact removeModifier_tickModifiers B.id .frozen s.modifiers
  · show isPlayerFrozen B.id (skipLoop _ _ _ _ _ _).2 = false
    rw [hloop]
    exact isPlayerFrozen_removeModifier B.id (tickModifiers s.modifiers)

/-- C8 witness: three players a, b, c with b frozen (turnsRemaining 1) and a
live shield on c; the advance from index 0 skips b and lands on index 2,
with b unfrozen afterwards and the rest of the store ticked once. -/
theorem C8_freeze_skip_witness :
    (handleNextTurn ⟨[⟨"a", 0, 0, 0⟩, ⟨"b", 0, 5, 0⟩, ⟨"c", 0, 10, 0⟩], [],
        [⟨"b", .frozen, 1, none⟩, ⟨"c", .shield, 2, none⟩], 0, .results,
        false, false, 0⟩).currentTurnIndex
      = stepIndex false 3 (stepIndex false 3 0)
  ∧ (handleNextTurn ⟨[⟨"a", 0, 0, 0⟩, ⟨"b", 0, 5, 0⟩, ⟨"c", 0, 10, 0⟩], [],
        [⟨"b", .frozen, 1, none⟩, ⟨"c", .shield, 2, none⟩], 0, .results,
        false, false, 0⟩).modifiers
      = tickModifiers (removeModifier "b" .frozen
          [⟨"b", .frozen, 1, none⟩, ⟨"c", .shield, 2, none⟩])
  ∧ isPlayerFrozen "b" (handleNextTurn ⟨[⟨"a", 0, 0, 0⟩, ⟨"b", 0, 5, 0⟩, ⟨"c", 0, 10, 0⟩], [],
        [⟨"b", .frozen, 1, none⟩, ⟨"c", .shield, 2, none⟩], 0, .results,
        false, false, 0⟩).modifiers = false :=
  have h := C8_freeze_skip
    ⟨[⟨"a", 0, 0, 0⟩, ⟨"b", 0, 5, 0⟩, ⟨"c", 0, 10, 0⟩], [],
      [⟨"b", .frozen, 1, none⟩, ⟨"c", .shield, 2, none⟩], 0, .results, false, false, 0⟩
    ⟨"b", 0, 5, 0⟩ ⟨"c", 0, 10, 0⟩ rfl (by decide) (by decide) (by decide)
    (by decide) (by decide)
  ⟨h.1, h.2.1, h.2.2.1⟩

/-- C7 counterexample: scores can go below zero.  Player B earns the
250-star, `points_swap` moves the points to A while B keeps the star, and
A then steals that star: the score of B becomes -250. -/
theorem C7_counterexample :
    (handleTwistChoosePlayer .steal_star ⟨"A", 250, 0, 0⟩ ⟨"B", 0, 5, 1⟩ 0
      (handleTwistChoosePlayer .points_swap ⟨"A", 0, 0, 0⟩ ⟨"B", 250, 5, 1⟩ 0
        ⟨awardStarPlayers "B" ⟨9, 250, false, none⟩ [⟨"A", 0, 0, 0⟩, ⟨"B", 0, 5, 0⟩],
         awardStarStars "B" ⟨9, 250, false, none⟩ (createInitialStars STAR_POINT_VALUES),
         [], 0, .spinning, false, false, 0⟩)).players
      = [⟨"A", 500, 0, 1⟩, ⟨"B", -250, 5, 0⟩]
  ∧ ∃ q ∈ (handleTwistChoosePlayer .steal_star ⟨"A", 250, 0, 0⟩ ⟨"B", 0, 5, 1⟩ 0
      (handleTwistChoosePlayer .points_swap ⟨"A", 0, 0, 0⟩ ⟨"B", 250, 5, 1⟩ 0
        ⟨awardStarPlayers "B" ⟨9, 250, false, none⟩ [⟨"A", 0, 0, 0⟩, ⟨"B", 0, 5, 0⟩],
         awardStarStars "B" ⟨9, 250, false, none⟩ (createInitialStars STAR_POINT_VALUES),
         [], 0, .spinning, false, false, 0⟩)).players, q.score < 0 := by decide

/-- C7 (amended): star award, `instant_points`, `upgrade_zero_star` and
`points_swap` preserve score non-negativity, and `steal_star` preserves it
exactly under the extra assumption that each star owned by the target is
worth no more than the current score of the target; without that assumption
the subtraction can drive the target score below zero. -/
theorem C7_score_nonnegativity :
    (∀ pid star (players : List Player), (∀ p ∈ players, 0 ≤ p.score) →
      0 ≤ star.pointValue → ∀ q ∈ awardStarPlayers pid star players, 0 ≤ q.score)
  ∧ (∀ twist cur (players : List Player) stars (rand : Nat),
      twist.effectType = .instant_points → twist.requiresChoice = false →
      (∀ p ∈ players, 0 ≤ p.score) →
      ∀ ps, (executeImmediateTwist twist cur players stars rand).players = some ps →
        ∀ q ∈ ps, 0 ≤ q.score)
  ∧ (∀ twist cur (players : List Player) stars (rand : Nat),
      twist.effectType = .upgrade_zero_star → twist.requiresChoice = false →
      (∀ p ∈ players, 0 ≤ p.score) →
      ∀ ps, (executeImmediateTwist twist cur players stars rand).players = some ps →
        ∀ q ∈ ps, 0 ≤ q.score)
  ∧ (∀ cur target (rand : Nat) s, (∀ p ∈ s.players, 0 ≤ p.score) →
      0 ≤ cur.score → 0 ≤ target.score →
      ∀ q ∈ (handleTwistChoosePlayer .points_swap cur target rand s).players, 0 ≤ q.score)
  ∧ (∀ cur target (rand : Nat) s, (∀ p ∈ s.players, 0 ≤ p.score) →
      (∀ st ∈ s.stars, 0 ≤ st.pointValue) →
      (∀ st ∈ s.stars, st.earnedByPlayerId = some target.id →
        ∀ p ∈ s.players, p.id = target.id → st.pointValue ≤ p.score) →
      ∀ q ∈ (handleTwistChoosePlayer .steal_star cur target rand s).players, 0 ≤ q.score) := by
  refine ⟨?_, ?_, ?_, ?_, ?_⟩
  · intro pid star players hplayers hstar q hq
    obtain ⟨p, hp, rfl⟩ := List.mem_map.mp hq
    split
    · show 0 ≤ p.score + star.pointValue
      have := hplayers p hp
      omega
    · exact hplayers p hp
  · intro twist cur players stars rand ht hc hplayers ps hps q hq
    simp only [executeImmediateTwist, ht, hc] at hps
    rw [if_neg (by simp)] at hps
    simp only [Option.some.injEq] at hps
    subst hps
    obtain ⟨p, hp, rfl⟩ := List.mem_map.mp hq
    split
    · show 0 ≤ p.score + (orDefault twist.effectValue 50 : Int)
      have h1 := hplayers p hp
      have h2 : (0 : Int) ≤ (orDefault twist.effectValue 50 : Int) := Int.ofNat_nonneg _
      omega
    · exact hplayers p hp
  · intro twist cur players stars rand ht hc hplayers ps hps q hq
    simp only [executeImmediateTwist, ht, hc] at hps
    rw [if_neg (by simp)] at hps
    cases hfind : stars.find? (fun s =>
        decide (s.earnedByPlayerId = some cur.id) && decide (s.pointValue = 0)) with
    | none => rw [hfind] at hps; simp [emptyResult] at hps
    | some z =>
      rw [hfind] at hps
      simp only [Option.some.injEq] at hps
      subst hps
      obtain ⟨p, hp, rfl⟩ := List.mem_map.mp hq
      split
      · show 0 ≤ p.score + 250
        have := hplayers p hp
        omega
      · exact hplayers p hp
  · intro cur target rand s hplayers hcur htarget q hq
    simp only [handleTwistChoosePlayer] at hq
    rw [handleNextTurn_players] at hq
    by_cases hscore : cur.score < target.score
    · rw [if_pos hscore] at hq
      obtain ⟨p, hp, rfl⟩ := List.mem_map.mp hq
      split
      · exact htarget
      · split
        · exact hcur
        · exact hplayers p hp
    · rw [if_neg hscore] at hq
      exact hplayers q hq
  · intro cur target rand s hplayers hstars howned q hq
    simp only [handleTwistChoosePlayer] at hq
    rw [handleNextTurn_players] at hq
    cases hfind : (s.stars.filter fun st =>
        decide (st.earnedByPlayerId = some target.id))[rand %
          (s.stars.filter fun st =>
            decide (st.earnedByPlayerId = some target.id)).length]? with
    | none => rw [hfind] at hq; exact hplayers q hq
    | some star =>
      rw [hfind] at hq
      have hstarmem : star ∈ s.stars.filter fun st =>
          decide (st.earnedByPlayerId = some target.id) := by
        obtain ⟨hlt, hget⟩ := List.getElem?_eq_some.mp hfind
        exact hget ▸ List.getElem_mem hlt
      rw [List.mem_filter] at hstarmem
      have hsmem := hstarmem.1
      have hsowner : star.earnedByPlayerId = some target.id := by
        have := hstarmem.2
        simpa using this
      obtain ⟨p, hp, rfl⟩ := List.mem_map.mp hq
      split
      · rename_i hptarget
        show 0 ≤ p.score - star.pointValue
        have := howned star hsmem hsowner p hp hptarget
        omega
      · split
        · show 0 ≤ p.score + star.pointValue
          have h1 := hplayers p hp
          have h2 := hstars star hsmem
          omega
        · exact hplayers p hp

/-- C7 witness: awarding the 250-star to B from zero scores keeps every
score non-negative. -/
theorem C7_score_nonnegativity_witness :
    ∀ q ∈ awardStarPlayers "B" ⟨9, 250, false, none⟩ [⟨"A", 0, 0, 0⟩, ⟨"B", 0, 5, 0⟩],
      0 ≤ q.score :=
  C7_score_nonnegativity.1 "B" ⟨9, 250, false, none⟩ [⟨"A", 0, 0, 0⟩, ⟨"B", 0, 5, 0⟩]
    (by decide) (by decide)

/-- The function `pickFrom` returns `none` exactly on the empty pool. -/
lemma pickFrom_eq_none_iff (pool : List TriviaQuestion) (pick : Nat) :
    pickFrom pool pick = none ↔ pool = [] := by
  constructor
  · intro h
    by_contra hne
    have hlen : 0 < pool.length := List.length_pos.mpr hne
    have hlt : pick % pool.length < pool.length := Nat.mod_lt _ hlen
    rw [pickFrom, List.getElem?_eq_getElem hlt] at h
    cases h
  · intro h
    subst h
    rfl

/-- A picked question belongs to its pool. -/
lemma pickFrom_mem {pool : List TriviaQuestion} {pick : Nat} {q : TriviaQuestion}
    (h : pickFrom pool pick = some q) : q ∈ pool := by
  obtain ⟨hlt, hget⟩ := List.getElem?_eq_some.mp h
  exact hget ▸ List.getElem_mem hlt

/-- C2: `selectQuestionByDifficulty` returns `none` exactly when every
question is already used; any returned question is an unused member of the
pool; and whenever an unused question of the requested difficulty (passing
the category filter) exists, the returned question has that exact difficulty
and passes the filter — so the difficulty/category cascade only relaxes when
it must. -/
theorem C2_select_question (questions : List TriviaQuestion) (used : List String)
    (difficulty : Nat) (forced : Option String) (pick : Nat) :
    (selectQuestionByDifficulty questions used difficulty forced pick = none ↔
      ∀ q ∈ questions, used.contains q.id = true)
  ∧ (∀ q, selectQuestionByDifficulty questions used difficulty forced pick = some q →
      q ∈ questions ∧ used.contains q.id = false)
  ∧ ((∃ q ∈ questions, q.difficulty = difficulty ∧ used.contains q.id = false ∧
        categoryFilter forced q = true) →
      ∀ q, selectQuestionByDifficulty questions used difficulty forced pick = some q →
        q.difficulty = difficulty ∧ categoryFilter forced q = true) := by
  refine ⟨?_, ?_, ?_⟩
  · simp only [selectQuestionByDifficulty]
    cases hA : (questions.filter fun q =>
        decide (q.difficulty = difficulty) && !used.contains q.id &&
          categoryFilter forced q).isEmpty with
    | false =>
      rw [if_neg Bool.false_ne_true]
      have hAne : (questions.filter fun q =>
          decide (q.difficulty = difficulty) && !used.contains q.id &&
            categoryFilter forced q) ≠ [] := by
        intro hcon
        rw [hcon] at hA
        cases hA
      constructor
      · intro h
        exact absurd (pickFrom_eq_none_iff _ _ |>.mp h) hAne
      · intro hall
        exfalso
        obtain ⟨x, hx⟩ := List.exists_mem_of_ne_nil _ hAne
        rw [List.mem_filter] at hx
        have := hall x hx.1
        simp only [Bool.and_eq_true, Bool.not_eq_true', decide_eq_true_eq] at hx
        rw [this] at hx
        cases hx.2.1.2
    | true =>
      rw [if_pos rfl]
      cases hNear : List.findSome?
          (fun d => pickFrom (List.filter
            (fun q => decide ((q.difficulty : Int) = d) && !used.contains q.id &&
              categoryFilter forced q) questions) pick)
          (List.filter (fun d => decide (1 ≤ d) && decide (d ≤ 5))
            [(difficulty : Int) - 1, (difficulty : Int) + 1,
             (difficulty : Int) - 2, (difficulty : Int) + 2]) with
      | some q =>
        constructor
        · intro h; cases h
        · intro hall
          exfalso
          obtain ⟨l₁, d, l₂, hsplit, hfd, hprev⟩ := List.findSome?_eq_some_iff.mp hNear
          have hq := pickFrom_mem hfd
          rw [List.mem_filter] at hq
          have hmem := hq.1
          have hpred := hq.2
          simp only [Bool.and_eq_true, Bool.not_eq_true'] at hpred
          rw [hall q hmem] at hpred
          cases hpred.1.2
      | none =>
        cases hcond : ((questions.filter fun q =>
            !used.contains q.id && categoryFilter forced q).isEmpty && forced.isSome) with
        | true =>
          rw [if_pos rfl, pickFrom_eq_none_iff, List.filter_eq_nil]
          constructor
          · intro h q hq
            have := h q hq
            simpa using this
          · intro hall q hq
            have hmem : q.id ∈ used := List.elem_iff.mp (hall q hq)
            simp [hmem]
        | false =>
          rw [if_neg Bool.false_ne_true, pickFrom_eq_none_iff]
          constructor
          · intro hfil
            have hempty : (questions.filter fun q =>
                !used.contains q.id && categoryFilter forced q).isEmpty = true := by
              rw [hfil]; rfl
            have hforced : forced.isSome = false := by
              cases hfs : forced.isSome
              · rfl
              · rw [hempty, hfs] at hcond; cases hcond
            have hfnone : forced = none := by
              cases forced
              · rfl
              · cases hforced
            intro q hq
            have := List.filter_eq_nil.mp hfil q hq
            simpa [hfnone, categoryFilter] using this
          · intro hall
            apply List.filter_eq_nil.mpr
            intro a ha
            have hmem : a.id ∈ used := List.elem_iff.mp (hall a ha)
            simp [hmem]
  · intro q hsel
    simp only [selectQuestionByDifficulty] at hsel
    cases hA : (questions.filter fun q =>
        decide (q.difficulty = difficulty) && !used.contains q.id &&
          categoryFilter forced q).isEmpty with
    | false =>
      rw [hA, if_neg Bool.false_ne_true] at hsel
      have hq := pickFrom_mem hsel
      rw [List.mem_filter] at hq
      refine ⟨hq.1, ?_⟩
      have hpred := hq.2
      simp only [Bool.and_eq_true, Bool.not_eq_true'] at hpred
      exact hpred.1.2
    | true =>
      rw [hA, if_pos rfl] at hsel
      cases hNear : List.findSome?
          (fun d => pickFrom (List.filter
            (fun q => decide ((q.difficulty : Int) = d) && !used.contains q.id &&
              categoryFilter forced q) questions) pick)
          (List.filter (fun d => decide (1 ≤ d) && decide (d ≤ 5))
            [(difficulty : Int) - 1, (difficulty : Int) + 1,
             (difficulty : Int) - 2, (difficulty : Int) + 2]) with
      | some q' =>
        rw [hNear] at hsel
        have hqq : q' = q := by simpa using hsel
        subst hqq
        obtain ⟨l₁, d, l₂, hsplit, hfd, hprev⟩ := List.findSome?_eq_some_iff.mp hNear
        have hq := pickFrom_mem hfd
        rw [List.mem_filter] at hq
        refine ⟨hq.1, ?_⟩
        have hpred := hq.2
        simp only [Bool.and_eq_true, Bool.not_eq_true'] at hpred
        exact hpred.1.2
      | none =>
        rw [hNear] at hsel
        cases hcond : ((questions.filter fun q =>
            !used.contains q.id && categoryFilter forced q).isEmpty && forced.isSome) with
        | true =>
          rw [hcond, if_pos rfl] at hsel
          have hq := pickFrom_mem hsel
          rw [List.mem_filter] at hq
          refine ⟨hq.1, ?_⟩
          have hpred := hq.2
          simp only [Bool.not_eq_true'] at hpred
          exact hpred
        | false =>
          rw [hcond, if_neg Bool.false_ne_true] at hsel
          have hq := pickFrom_mem hsel
          rw [List.mem_filter] at hq
          refine ⟨hq.1, ?_⟩
          have hpred := hq.2
          simp only [Bool.and_eq_true, Bool.not_eq_true'] at hpred
          exact hpred.1
  · intro hex
    obtain ⟨q0, hq0, hd, hu, hcat⟩ := hex
    have hmem : q0 ∈ questions.filter fun q =>
        decide (q.difficulty = difficulty) && !used.contains q.id &&
          categoryFilter forced q := by
      rw [List.mem_filter]
      refine ⟨hq0, ?_⟩
      have hnotmem : q0.id ∉ used := by
        intro hmem
        have hcon : used.contains q0.id = true := List.elem_iff.mpr hmem
        rw [hcon] at hu
        cases hu
      simp [hd, hnotmem, hcat]
    have hA : (questions.filter fun q =>
        decide (q.difficulty = difficulty) && !used.contains q.id &&
          categoryFilter forced q).isEmpty = false := by
      cases hAE : (questions.filter fun q =>
          decide (q.difficulty = difficulty) && !used.contains q.id &&
            categoryFilter forced q).isEmpty with
      | false => rfl
      | true =>
        rw [List.isEmpty_iff] at hAE
        rw [hAE] at hmem
        cases hmem
    intro q hsel
    simp only [selectQuestionByDifficulty] at hsel
    rw [hA, if_neg Bool.false_ne_true] at hsel
    have hq := pickFrom_mem hsel
    rw [List.mem_filter] at hq
    have hpred := hq.2
    simp only [Bool.and_eq_true, Bool.not_eq_true', decide_eq_true_eq] at hpred
    exact ⟨hpred.1.1, hpred.2⟩

/-- C2 witness: with a single unused difficulty-3 question, selection at
difficulty 3 serves it at the exact difficulty. -/
theorem C2_select_question_witness :
    (⟨"q1", 3, "history"⟩ : TriviaQuestion).difficulty = 3
  ∧ categoryFilter none ⟨"q1", 3, "history"⟩ = true :=
  (C2_select_question [⟨"q1", 3, "history"⟩] [] 3 none 0).2.2
    (by decide) ⟨"q1", 3, "history"⟩ (by decide)

/-- Evaluating `find?` over a filter that discards every match gives `none`. -/
lemma find?_filter_of_none {α : Type} (p q : α → Bool) (l : List α)
    (h : ∀ x, p x = true → q x = false) : (l.filter q).find? p = none := by
  rw [List.find?_eq_none]
  intro x hx
  rw [List.mem_filter] at hx
  intro hpx
  rw [h x hpx] at hx
  cases hx.2

/-- A filter that keeps every match leaves `find?` unchanged. -/
lemma find?_filter_of_keep {α : Type} (p q : α → Bool) (l : List α)
    (h : ∀ x, p x = true → q x = true) : (l.filter q).find? p = l.find? p := by
  induction l with
  | nil => rfl
  | cons a t ih =>
    cases hq : q a with
    | true =>
      rw [List.filter_cons_of_pos hq]
      cases hp : p a with
      | true => rw [List.find?_cons_of_pos _ hp, List.find?_cons_of_pos _ hp]
      | false =>
        rw [List.find?_cons_of_neg _ (by simp [hp]), List.find?_cons_of_neg _ (by simp [hp]), ih]
    | false =>
      rw [List.filter_cons_of_neg (by simp [hq])]
      have hp : p a = false := by
        cases hpa : p a
        · rfl
        · rw [h a hpa] at hq; cases hq
      rw [ih, List.find?_cons_of_neg _ (by simp [hp])]

/-- Under key uniqueness, ticking the store decrements (and possibly
expires) the looked-up entry. -/
lemma getModifier_tickModifiers (pid : String) (ty : ModifierType) :
    ∀ l : List PlayerModifier, UniqueKeys l →
    getModifier pid ty (tickModifiers l)
      = (getModifier pid ty l).bind fun m =>
          if 0 < (decModifier m).turnsRemaining then some (decModifier m) else none := by
  intro l hu
  induction l with
  | nil => rfl
  | cons a t ih =>
    rw [UniqueKeys, List.pairwise_cons] at hu
    obtain ⟨ha, ht⟩ := hu
    have key_dec : ∀ m : PlayerModifier, modKey pid ty (decModifier m) = modKey pid ty m :=
      fun m => rfl
    cases hk : modKey pid ty a with
    | true =>
      have hga : getModifier pid ty (a :: t) = some a := by
        rw [getModifier, List.find?_cons_of_pos _ hk]
      rw [hga]
      cases hpos : decide (0 < (decModifier a).turnsRemaining) with
      | true =>
        have htick : tickModifiers (a :: t) = decModifier a :: tickModifiers t := by
          simp [tickModifiers, List.filter_cons, hpos]
        rw [htick, getModifier, List.find?_cons_of_pos _ (by rw [key_dec]; exact hk)]
        simp only [decide_eq_true_eq] at hpos
        simp [hpos]
      | false =>
        have htick : tickModifiers (a :: t) = tickModifiers t := by
          simp [tickModifiers, List.filter_cons, hpos]
        rw [htick]
        have hnone : getModifier pid ty (tickModifiers t) = none := by
          rw [getModifier, List.find?_eq_none]
          intro x hx
          rw [tickModifiers, List.mem_filter] at hx
          obtain ⟨y, hy, rfl⟩ := List.mem_map.mp hx.1
          rw [key_dec]
          intro hky
          apply ha y hy
          simp only [modKey, Bool.and_eq_true, decide_eq_true_eq] at hk hky
          exact ⟨hk.1.trans hky.1.symm, hk.2.trans hky.2.symm⟩
        rw [hnone]
        simp only [decide_eq_false_iff_not] at hpos
        simp [hpos]
    | false =>
      have hga : getModifier pid ty (a :: t) = getModifier pid ty t := by
        rw [getModifier, List.find?_cons_of_neg _ (by simp [hk])]
        rfl
      rw [hga]
      cases hpos : decide (0 < (decModifier a).turnsRemaining) with
      | true =>
        have htick : tickModifiers (a :: t) = decModifier a :: tickModifiers t := by
          simp [tickModifiers, List.filter_cons, hpos]
        rw [htick, getModifier, List.find?_cons_of_neg _ (by rw [key_dec]; simp [hk])]
        exact ih ht
      | false =>
        have htick : tickModifiers (a :: t) = tickModifiers t := by
          simp [tickModifiers, List.filter_cons, hpos]
        rw [htick]
        exact ih ht

/-- Lookup after `addModifier` is overridden exactly at its own key. -/
lemma getModifier_addModifier (pid : String) (ty : ModifierType) (m : PlayerModifier)
    (l : List PlayerModifier) :
    getModifier pid ty (addModifier m l)
      = if modKey pid ty m then some m else getModifier pid ty l := by
  rw [addModifier, getModifier, List.find?_append]
  cases hk : modKey pid ty m with
  | true =>
    have h1 : (l.filter fun x => !(modKey m.playerId m.type x)).find? (modKey pid ty)
        = none := by
      apply find?_filter_of_none
      intro x hx
      simp only [modKey, Bool.and_eq_true, decide_eq_true_eq] at hx hk
      simp [modKey, hx.1, hx.2, hk.1, hk.2]
    rw [h1, List.find?_cons_of_pos _ hk]
    simp
  | false =>
    have h1 : (l.filter fun x => !(modKey m.playerId m.type x)).find? (modKey pid ty)
        = l.find? (modKey pid ty) := by
      apply find?_filter_of_keep
      intro x hx
      simp only [modKey, Bool.and_eq_true, decide_eq_true_eq] at hx
      have hne : ¬(x.playerId = m.playerId ∧ x.type = m.type) := by
        intro hcon
        have : modKey pid ty m = true := by
          simp [modKey, hcon.1 ▸ hx.1, hcon.2 ▸ hx.2]
        rw [this] at hk
        cases hk
      by_cases h1 : x.playerId = m.playerId <;> by_cases h2 : x.type = m.type <;>
        simp [modKey, h1, h2]
      exact absurd ⟨h1, h2⟩ hne
    rw [h1, List.find?_cons_of_neg _ (by simp [hk])]
    simp [getModifier]

/-- Lookup after `removeModifier` is cleared exactly at its own key. -/
lemma getModifier_removeModifier (pid ty : _) (p : String) (t : ModifierType)
    (l : List PlayerModifier) :
    getModifier pid ty (removeModifier p t l)
      = if decide (p = pid) && decide (t = ty) then none else getModifier pid ty l := by
  rw [removeModifier, getModifier]
  cases hk : (decide (p = pid) && decide (t = ty)) with
  | true =>
    simp only [Bool.and_eq_true, decide_eq_true_eq] at hk
    rw [if_pos (by simp [hk.1, hk.2])]
    apply find?_filter_of_none
    intro x hx
    simp only [modKey, Bool.and_eq_true, decide_eq_true_eq] at hx
    simp [modKey, hx.1, hx.2, hk.1, hk.2]
  | false =>
    rw [if_neg (by simp [hk])]
    apply find?_filter_of_keep
    intro x hx
    simp only [modKey, Bool.and_eq_true, decide_eq_true_eq] at hx
    have hne : ¬(x.playerId = p ∧ x.type = t) := by
      intro hcon
      have : (decide (p = pid) && decide (t = ty)) = true := by
        simp [← hcon.1, ← hcon.2, hx.1, hx.2]
      rw [this] at hk
      cases hk
    by_cases h1 : x.playerId = p <;> by_cases h2 : x.type = t <;>
      simp [modKey, h1, h2]
    exact absurd ⟨h1, h2⟩ hne

/-- Adding a modifier preserves key uniqueness. -/
lemma uniqueKeys_addModifier (m : PlayerModifier) (l : List PlayerModifier)
    (hu : UniqueKeys l) : UniqueKeys (addModifier m l) := by
  rw [addModifier, UniqueKeys, List.pairwise_append]
  refine ⟨List.Pairwise.sublist (List.filter_sublist l) hu, List.pairwise_singleton _ _, ?_⟩
  intro a haf b hb
  rw [List.mem_singleton] at hb
  subst hb
  rw [List.mem_filter] at haf
  intro hcon
  have hkeyb : modKey b.playerId b.type a = true := by simp [modKey, hcon.1, hcon.2]
  rw [hkeyb] at haf
  cases haf.2

/-- Removing a modifier preserves key uniqueness. -/
lemma uniqueKeys_removeModifier (p : String) (t : ModifierType) (l : List PlayerModifier)
    (hu : UniqueKeys l) : UniqueKeys (removeModifier p t l) :=
  List.Pairwise.sublist (List.filter_sublist l) hu

/-- Ticking the store preserves key uniqueness. -/
lemma uniqueKeys_tickModifiers (l : List PlayerModifier) (hu : UniqueKeys l) :
    UniqueKeys (tickModifiers l) := by
  rw [tickModifiers]
  apply List.Pairwise.sublist (List.filter_sublist _)
  rw [List.pairwise_map]
  exact hu

/-- Every store call preserves key uniqueness. -/
lemma uniqueKeys_applyModOp (op : ModOp) (l : List PlayerModifier) (hu : UniqueKeys l) :
    UniqueKeys (applyModOp l op) := by
  cases op with
  | add m => exact uniqueKeys_addModifier m l hu
  | remove p t => exact uniqueKeys_removeModifier p t l hu
  | tick => exact uniqueKeys_tickModifiers l hu

/-- Per-call refinement of the store against the single-key view. -/
lemma getModifier_applyModOp (pid : String) (ty : ModifierType) (op : ModOp)
    (l : List PlayerModifier) (hu : UniqueKeys l) :
    getModifier pid ty (applyModOp l op) = specStep pid ty (getModifier pid ty l) op := by
  cases op with
  | add m => exact getModifier_addModifier pid ty m l
  | remove p t => exact getModifier_removeModifier pid ty p t l
  | tick => exact getModifier_tickModifiers pid ty l hu

/-- Call-sequence refinement from any store with unique keys. -/
lemma runModOps_general (pid : String) (ty : ModifierType) :
    ∀ (ops : List ModOp) (l : List PlayerModifier), UniqueKeys l →
      UniqueKeys (ops.foldl applyModOp l)
    ∧ getModifier pid ty (ops.foldl applyModOp l)
        = ops.foldl (specStep pid ty) (getModifier pid ty l) := by
  intro ops
  induction ops with
  | nil => intro l hu; exact ⟨hu, rfl⟩
  | cons op ops ih =>
    intro l hu
    rw [List.foldl_cons, List.foldl_cons]
    obtain ⟨h1, h2⟩ := ih (applyModOp l op) (uniqueKeys_applyModOp op l hu)
    refine ⟨h1, ?_⟩
    rw [h2, getModifier_applyModOp pid ty op l hu]

/-- C5: after any finite sequence of store calls from the empty store, the
modifier list holds at most one entry per (playerId, type) key, and the
entry found for a key is exactly the most recent add for that key,
decremented once per tick since (and absent once removed or expired). -/
theorem C5_modifier_uniqueness (ops : List ModOp) (pid : String) (ty : ModifierType) :
    UniqueKeys (runModOps ops)
  ∧ getModifier pid ty (runModOps ops) = specGet pid ty ops :=
  runModOps_general pid ty ops [] List.Pairwise.nil

/-- C5 witness: add shield 2 to A, overwrite with shield 3, freeze B, tick:
the looked-up shield for A is the second add minus one tick, and B has
expired. -/
theorem C5_modifier_uniqueness_witness :
    UniqueKeys (runModOps [.add ⟨"A", .shield, 2, none⟩, .add ⟨"A", .shield, 3, none⟩,
        .add ⟨"B", .frozen, 1, none⟩, .tick])
  ∧ getModifier "A" .shield (runModOps [.add ⟨"A", .shield, 2, none⟩,
        .add ⟨"A", .shield, 3, none⟩, .add ⟨"B", .frozen, 1, none⟩, .tick])
      = specGet "A" .shield [.add ⟨"A", .shield, 2, none⟩, .add ⟨"A", .shield, 3, none⟩,
        .add ⟨"B", .frozen, 1, none⟩, .tick] :=
  C5_modifier_uniqueness [.add ⟨"A", .shield, 2, none⟩, .add ⟨"A", .shield, 3, none⟩,
    .add ⟨"B", .frozen, 1, none⟩, .tick] "A" .shield
